import Mathlib

/-!
# Verification of the LoanRepay calculation core (`src/calculator.py`)

Shallow embedding of the pure-function loan calculator: money amounts and
rates are modelled as exact rationals (`ℚ`), Python's `round(x, 2)` as
rounding to an integer number of cents (`round2` below), and calendar dates
as integer day ordinals (proleptic Gregorian day numbers), with
`relativedelta(months=n)` modelled by calendar month addition with day
clamping.  The float tie-breaking of CPython's `round` (banker's rounding on
binary floats) is abstracted to round-half-up on exact rationals; no claim
under verification depends on a half-cent tie.
-/

namespace LoanRepay

/-- Python `round(x, 2)`: round to a whole number of cents.  Written with
the executable `Rat.floor` so that concrete schedules evaluate by `decide`. -/
def round2 (x : ℚ) : ℚ := ((Rat.floor (x * 100 + 1 / 2) : ℤ) : ℚ) / 100

/-- `round2` agrees with rounding via Mathlib's `round`. -/
theorem round2_eq_round (x : ℚ) : round2 x = ((round (x * 100) : ℤ) : ℚ) / 100 := by
  have hf : Rat.floor (x * 100 + 1 / 2) = ⌊x * 100 + 1 / 2⌋ := by
    rw [Rat.floor_def' (x * 100 + 1 / 2), Rat.floor_def]
  rw [round2, hf, round_eq]

theorem round2_zero : round2 0 = 0 := by
  rw [round2_eq_round]
  simp

theorem round2_nonneg {x : ℚ} (h : 0 ≤ x) : 0 ≤ round2 x := by
  rw [round2_eq_round]
  have h1 : (0 : ℤ) ≤ round (x * 100) := by
    rw [round_eq]
    have : (0 : ℚ) ≤ x * 100 + 1 / 2 := by linarith
    exact Int.le_floor.mpr (by exact_mod_cast this)
  have : (0 : ℚ) ≤ ((round (x * 100) : ℤ) : ℚ) := by exact_mod_cast h1
  have h100 : (0 : ℚ) < 100 := by norm_num
  exact div_nonneg this (le_of_lt h100)

theorem round2_mono {x y : ℚ} (h : x ≤ y) : round2 x ≤ round2 y := by
  have h1 : round (x * 100) ≤ round (y * 100) := by
    rw [round_eq, round_eq]
    exact Int.floor_le_floor (by linarith)
  have h2 : ((round (x * 100) : ℤ) : ℚ) ≤ ((round (y * 100) : ℤ) : ℚ) := by exact_mod_cast h1
  rw [round2_eq_round, round2_eq_round]
  linarith

/-- `round2` is the identity on whole numbers of cents. -/
theorem round2_cents (n : ℤ) : round2 ((n : ℚ) / 100) = (n : ℚ) / 100 := by
  have : ((n : ℚ) / 100) * 100 = (n : ℚ) := by field_simp
  rw [round2_eq_round, this, round_intCast]

/-- Any value at least half a cent rounds to at least one cent. -/
theorem round2_ge_cent {x : ℚ} (h : 1 / 200 ≤ x) : 1 / 100 ≤ round2 x := by
  have h1 : (1 : ℤ) ≤ round (x * 100) := by
    rw [round_eq]
    apply Int.le_floor.mpr
    push_cast
    linarith
  have : (1 : ℚ) ≤ ((round (x * 100) : ℤ) : ℚ) := by exact_mod_cast h1
  rw [round2_eq_round]
  linarith

/-- Characterisation of `round2` by bounds, for computing concrete values
whose direct kernel evaluation is too deep. -/
theorem round2_eq_of_bounds {x : ℚ} {n : ℤ} (h1 : (n : ℚ) ≤ x * 100 + 1 / 2)
    (h2 : x * 100 + 1 / 2 < (n : ℚ) + 1) : round2 x = (n : ℚ) / 100 := by
  rw [round2_eq_round, round_eq]
  have : ⌊x * 100 + 1 / 2⌋ = n := Int.floor_eq_iff.mpr ⟨h1, h2⟩
  rw [this]

/-- `round2` always lands on the cent grid. -/
theorem round2_eq_cents (x : ℚ) : ∃ n : ℤ, round2 x = (n : ℚ) / 100 :=
  ⟨round (x * 100), round2_eq_round x⟩

/-! ## Frequencies and the period calendar -/

inductive Frequency
  | weekly
  | fortnightly
  | monthly
  deriving DecidableEq, Repr

/-- `periods_per_year` from `calculator.py`.  The Python version raises
`ValueError` on an unrecognised string; the embedding's inductive argument
makes that case unrepresentable. -/
def periods_per_year : Frequency → ℕ
  | .weekly => 52
  | .fortnightly => 26
  | .monthly => 12

/-- Calendar dates are proleptic Gregorian day ordinals. -/
abbrev Date := Int

/-- Gregorian leap-year test. -/
def isLeap (y : Int) : Bool :=
  y % 4 == 0 && (y % 100 != 0 || y % 400 == 0)

def daysInMonth (y m : Int) : Int :=
  if m = 2 then (if isLeap y then 29 else 28)
  else if m = 4 ∨ m = 6 ∨ m = 9 ∨ m = 11 then 30
  else 31

/-- Day ordinal of a Gregorian date (Hinnant's civil-from-days inverse). -/
def daysFromCivil (y m d : Int) : Int :=
  let y1 := y - (if m ≤ 2 then 1 else 0)
  let era := Int.fdiv y1 400
  let yoe := y1 - era * 400
  let mp := (m + 9) % 12
  let doy := Int.fdiv (153 * mp + 2) 5 + d - 1
  let doe := yoe * 365 + Int.fdiv yoe 4 - Int.fdiv yoe 100 + doy
  era * 146097 + doe - 719468

/-- Gregorian date of a day ordinal (Hinnant's civil-from-days). -/
def civilFromDays (z0 : Int) : Int × Int × Int :=
  let z := z0 + 719468
  let era := Int.fdiv z 146097
  let doe := z - era * 146097
  let yoe := Int.fdiv (doe - Int.fdiv doe 1460 + Int.fdiv doe 36524 - Int.fdiv doe 146096) 365
  let y := yoe + era * 400
  let doy := doe - (365 * yoe + Int.fdiv yoe 4 - Int.fdiv yoe 100)
  let mp := Int.fdiv (5 * doy + 2) 153
  let d := doy - Int.fdiv (153 * mp + 2) 5 + 1
  let m := mp + (if mp < 10 then 3 else -9)
  (y + (if m ≤ 2 then 1 else 0), m, d)

/-- `dateutil.relativedelta(months := n)` addition: advance by calendar
months, clamping to the last valid day of the target month. -/
def addMonths (z : Date) (n : Int) : Date :=
  let c := civilFromDays z
  let tm := c.1 * 12 + (c.2.1 - 1) + n
  let ny := Int.fdiv tm 12
  let nm := tm - ny * 12 + 1
  let nd := min c.2.2 (daysInMonth ny nm)
  daysFromCivil ny nm nd

/-- `add_period` from `calculator.py`: payment date of period `periods`. -/
def add_period (start : Date) (frequency : Frequency) (periods : Int) : Date :=
  match frequency with
  | .weekly => start + 7 * periods
  | .fortnightly => start + 14 * periods
  | .monthly => addMonths start periods

/-! ## PMT -/

/-- `pmt` from `calculator.py` (Excel-style level payment).  The Python
float literal `1e-12` is modelled as the exact rational `1/10^12`. -/
def pmt (rate_per_period : ℚ) (num_periods : Int) (present_value : ℚ) : ℚ :=
  if num_periods ≤ 0 then present_value
  else if |rate_per_period| < 1 / 10 ^ 12 then round2 (present_value / num_periods)
  else if num_periods = 1 then round2 (present_value * (1 + rate_per_period))
  else
    let r := rate_per_period
    let n := num_periods.toNat
    let pv := present_value
    round2 (pv * r * (1 + r) ^ n / ((1 + r) ^ n - 1))

/-! ## Override collections -/

structure RateChange where
  effective_date : Date
  annual_rate : ℚ
  adjusted_repayment : Option ℚ := none
  deriving DecidableEq, Repr

structure RepaymentChange where
  effective_date : Date
  amount : ℚ
  deriving DecidableEq, Repr

structure ExtraPayment where
  payment_date : Date
  amount : ℚ
  deriving DecidableEq, Repr

/-- The `for rc in sorted(...)` loop body of `get_rate_at_date`: scan in
ascending date order, taking each rate whose effective date is at or before
the query date, stopping at the first later one. -/
def rateScan (payment_date : Date) : ℚ → List RateChange → ℚ
  | current, [] => current
  | current, rc :: rest =>
    if payment_date ≥ rc.effective_date then rateScan payment_date rc.annual_rate rest
    else current

/-- `get_rate_at_date` from `calculator.py`. -/
def get_rate_at_date (payment_date : Date) (base_rate : ℚ)
    (rate_changes : List RateChange) : ℚ :=
  if rate_changes = [] then base_rate
  else rateScan payment_date base_rate
    (rate_changes.mergeSort (fun a b => a.effective_date ≤ b.effective_date))

/-! ## Period interest (`calculate_period_interest`) -/

/-- The split-interest accumulation loop of `calculate_period_interest`:
walk the sorted strictly-interior boundaries, adding
`balance * sub_rate / 365 * days` for each sub-interval, with a final
sub-interval running to `payment_date`. -/
def splitAccum (balance base_rate : ℚ) (rate_changes : List RateChange)
    (payment_date : Date) : ℚ → Date → List Date → ℚ
  | total, interval_start, [] =>
    total + balance * get_rate_at_date interval_start base_rate rate_changes / 365
      * ((payment_date - interval_start : ℤ) : ℚ)
  | total, interval_start, boundary :: rest =>
    splitAccum balance base_rate rate_changes payment_date
      (total + balance * get_rate_at_date interval_start base_rate rate_changes / 365
        * ((boundary - interval_start : ℤ) : ℚ))
      boundary rest

/-- The sorted list of rate-change dates falling strictly inside
`(prev_date, payment_date)`. -/
def interiorBoundaries (rate_changes : List RateChange) (prev_date payment_date : Date) :
    List Date :=
  (rate_changes.filterMap fun rc =>
    if prev_date < rc.effective_date ∧ rc.effective_date < payment_date then
      some rc.effective_date
    else none).mergeSort (fun a b => decide (a ≤ b))

/-- `calculate_period_interest` from `calculator.py`.
Returns `(interest, end_of_period_rate)`. -/
def calculate_period_interest (balance : ℚ) (prev_date payment_date : Date)
    (base_rate : ℚ) (rate_changes : List RateChange) (frequency : Frequency) : ℚ × ℚ :=
  let ppy : ℚ := periods_per_year frequency
  let end_rate := get_rate_at_date payment_date base_rate rate_changes
  if rate_changes = [] then (round2 (balance * end_rate / ppy), end_rate)
  else
    let boundaries := interiorBoundaries rate_changes prev_date payment_date
    if boundaries = [] then (round2 (balance * end_rate / ppy), end_rate)
    else
      (round2 (splitAccum balance base_rate rate_changes payment_date 0 prev_date boundaries),
        end_rate)

/-! ## Repayment overrides (`get_repayment_at_date`) -/

/-- The unified override list of `get_repayment_at_date`: rate changes
carrying an `adjusted_repayment`, followed by the standalone repayment
changes, as `(effective_date, amount)` pairs. -/
def buildOverrides (rate_changes : List RateChange)
    (repayment_changes : List RepaymentChange) : List (Date × ℚ) :=
  (rate_changes.filterMap fun rc =>
    rc.adjusted_repayment.map fun adj => (rc.effective_date, adj))
    ++ repayment_changes.map fun rpc => (rpc.effective_date, rpc.amount)

/-- The scan loop of `get_repayment_at_date` over the date-sorted override
list: take each amount effective at or before the query date, stop at the
first later one. -/
def overrideScan (payment_date : Date) : ℚ → List (Date × ℚ) → ℚ
  | current, [] => current
  | current, (eff, amount) :: rest =>
    if payment_date ≥ eff then overrideScan payment_date amount rest
    else current

/-- `get_repayment_at_date` from `calculator.py`. -/
def get_repayment_at_date (payment_date : Date) (base_repayment : Option ℚ)
    (rate_changes : List RateChange) (repayment_changes : List RepaymentChange) :
    Option ℚ :=
  match base_repayment with
  | none => none
  | some base =>
    let overrides := buildOverrides rate_changes repayment_changes
    if overrides = [] then some base
    else
      some (overrideScan payment_date base
        (overrides.mergeSort (fun a b => decide (a.1 ≤ b.1))))

/-! ## Extra payments (`get_extras_for_period`) -/

/-- `get_extras_for_period` from `calculator.py`: sum the extra repayments
with `period_start < payment_date ≤ period_end`, rounded to cents. -/
def get_extras_for_period (period_start period_end : Date)
    (extra_repayments : List ExtraPayment) : ℚ :=
  if extra_repayments = [] then 0
  else
    round2 (extra_repayments.foldl
      (fun total er =>
        if period_start < er.payment_date ∧ er.payment_date ≤ period_end then
          total + er.amount
        else total)
      0)

/-! ## The amortization engine (`calculate_schedule`) -/

def MAX_ITERATIONS : ℕ := 2000

def ZERO_THRESHOLD : ℚ := 1 / 100

/-- The keyword parameters of `calculate_schedule`.  `paid_set` is omitted:
the Python function accepts it but never reads it. -/
structure LoanParams where
  principal : ℚ
  annual_rate : ℚ
  frequency : Frequency
  start_date : Date
  loan_term : Int
  fixed_repayment : Option ℚ := none
  rate_changes : List RateChange := []
  extra_repayments : List ExtraPayment := []
  repayment_changes : List RepaymentChange := []
  deriving DecidableEq, Repr

/-- The two warning strings `calculate_schedule` can set. -/
inductive ScheduleWarning
  | repaymentDoesNotCoverInterest
  | exceededMaxPeriods
  deriving DecidableEq, Repr

structure ScheduleRow where
  number : ℕ
  date : Date
  opening_balance : ℚ
  principal : ℚ
  interest : ℚ
  rate : ℚ
  calculated_pmt : ℚ
  additional : ℚ
  extra : ℚ
  closing_balance : ℚ
  deriving DecidableEq, Repr

structure ScheduleResult where
  rows : List ScheduleRow := []
  total_interest : ℚ := 0
  total_paid : ℚ := 0
  total_repayments : ℕ := 0
  payoff_date : Option Date := none
  warning : Option ScheduleWarning := none
  deriving DecidableEq, Repr

def payDate (P : LoanParams) (i : ℕ) : Date :=
  add_period P.start_date P.frequency (i : ℤ)

def prevDate (P : LoanParams) (i : ℕ) : Date :=
  if i > 1 then add_period P.start_date P.frequency ((i : ℤ) - 1) else P.start_date

def periodInterest (P : LoanParams) (i : ℕ) (balance : ℚ) : ℚ × ℚ :=
  calculate_period_interest balance (prevDate P i) (payDate P i) P.annual_rate
    P.rate_changes P.frequency

def currentRate (P : LoanParams) (i : ℕ) : ℚ :=
  get_rate_at_date (payDate P i) P.annual_rate P.rate_changes

def remainingTerm (P : LoanParams) (i : ℕ) : Int :=
  max (P.loan_term - ((i : ℤ) - 1)) 1

def calculatedPayment (P : LoanParams) (i : ℕ) (balance : ℚ) : ℚ :=
  pmt (currentRate P i / (periods_per_year P.frequency : ℚ)) (remainingTerm P i) balance

def periodRepayment (P : LoanParams) (i : ℕ) : Option ℚ :=
  get_repayment_at_date (payDate P i) P.fixed_repayment P.rate_changes P.repayment_changes

def extraStart (P : LoanParams) (i : ℕ) : Date :=
  if i > 1 then prevDate P i else prevDate P i - 1

def periodExtra (P : LoanParams) (i : ℕ) : ℚ :=
  get_extras_for_period (extraStart P i) (payDate P i) P.extra_repayments

/-- The per-iteration payment variables of the schedule loop. -/
structure PayState where
  actual : ℚ
  additional : ℚ
  calculated : ℚ
  principal_from : ℚ
  extra : ℚ
  total : ℚ
  deriving DecidableEq, Repr

/-- The scheduled-repayment block of the loop (`calculator.py` lines
273-282): if a scheduled repayment applies, deltas below ten cents are
treated as rounding noise.  Returns `(actual, additional, calculated)`. -/
def deadband (period_repayment : Option ℚ) (calculated_payment : ℚ) : ℚ × ℚ × ℚ :=
  match period_repayment with
  | some pr =>
    let additional := round2 (pr - calculated_payment)
    if |additional| < 10 / 100 then (pr, 0, pr)
    else (pr, additional, calculated_payment)
  | none => (calculated_payment, 0, calculated_payment)

/-- The payment variables before the overshoot cap (lines 271-288). -/
def preCapState (P : LoanParams) (i : ℕ) (balance : ℚ) : PayState :=
  let x := deadband (periodRepayment P i) (calculatedPayment P i balance)
  let interest := (periodInterest P i balance).1
  let pf := round2 (x.1 - interest)
  ⟨x.1, x.2.1, x.2.2, pf, periodExtra P i, pf + periodExtra P i⟩

/-- The overshoot cap (lines 291-300): absorb any overshoot of
`total_principal` over the balance by reducing `extra` when it can absorb
it all, otherwise recompute the payment as an exact payoff; either way
clamp `total` to the balance. -/
def applyCap (has_repayment : Bool) (interest balance : ℚ) (s : PayState) : PayState :=
  if s.total > balance then
    let overshoot := s.total - balance
    if s.extra > 0 ∧ s.extra ≥ overshoot then
      { s with extra := round2 (s.extra - overshoot), total := balance }
    else
      let actual := round2 (interest + balance - s.extra)
      { s with actual := actual,
               principal_from := round2 (actual - interest),
               additional :=
                 if has_repayment then round2 (actual - s.calculated) else 0,
               total := balance }
  else s

/-- The final-period cap on `calculated_payment` (lines 303-306). -/
def applyFinalCap (has_repayment : Bool) (interest balance : ℚ) (s : PayState) : PayState :=
  if s.principal_from + s.extra ≥ balance then
    if has_repayment then
      let c := round2 (interest + (balance - s.extra))
      { s with calculated := c, additional := round2 (s.actual - c) }
    else s
  else s

/-- The payment variables after both caps (lines 271-306). -/
def stepState (P : LoanParams) (i : ℕ) (balance : ℚ) : PayState :=
  applyFinalCap (periodRepayment P i).isSome (periodInterest P i balance).1 balance
    (applyCap (periodRepayment P i).isSome (periodInterest P i balance).1 balance
      (preCapState P i balance))

/-- One iteration of the schedule loop: the emitted row and the
`actual_payment` used for the `total_paid` accumulator. -/
def stepRow (P : LoanParams) (i : ℕ) (balance : ℚ) : ScheduleRow × ℚ :=
  let s := stepState P i balance
  let nb0 := round2 (balance - s.total)
  let new_balance := if nb0 < ZERO_THRESHOLD then 0 else nb0
  (⟨i, payDate P i, balance, s.principal_from, (periodInterest P i balance).1,
     (periodInterest P i balance).2, s.calculated, s.additional, s.extra, new_balance⟩,
   s.actual)

/-- The `for i in range(1, MAX_ITERATIONS + 1)` loop of
`calculate_schedule`, as fuel recursion.  Returns
`(rows, total_interest, total_paid, ran_to_cap)` where `ran_to_cap` is
true exactly when the loop finished without a `break` (Python's
`for`-`else`). -/
def scheduleLoop (P : LoanParams) : ℕ → ℕ → ℚ → List ScheduleRow × ℚ × ℚ × Bool
  | _, 0, _ => ([], 0, 0, true)
  | i, fuel + 1, balance =>
    if balance < ZERO_THRESHOLD then ([], 0, 0, false)
    else
      let (row, actual) := stepRow P i balance
      if row.closing_balance ≤ 0 then ([row], row.interest, actual + row.extra, false)
      else
        let rest := scheduleLoop P (i + 1) fuel row.closing_balance
        (row :: rest.1, row.interest + rest.2.1, actual + row.extra + rest.2.2.1, rest.2.2.2)

/-- `calculate_schedule` from `calculator.py`. -/
def calculate_schedule (P : LoanParams) : ScheduleResult :=
  let r := scheduleLoop P 1 MAX_ITERATIONS (round2 P.principal)
  let warning : Option ScheduleWarning :=
    if r.2.2.2 then
      match P.fixed_repayment with
      | some fr =>
        if fr ≤ P.principal * (P.annual_rate / (periods_per_year P.frequency : ℚ)) then
          some .repaymentDoesNotCoverInterest
        else some .exceededMaxPeriods
      | none => none
    else none
  { rows := r.1,
    total_interest := round2 r.2.1,
    total_paid := round2 r.2.2.1,
    total_repayments := r.1.length,
    payoff_date := r.1.getLast?.map (·.date),
    warning := warning }

/-! ## Spec-side descriptions used by the claim theorems -/

/-- Spec-side description of split-period interest: the period
`(prev_date, payment_date]` is cut at the sorted strictly-interior
boundaries `bs`, and each sub-interval `[a, b)` contributes
`balance * rate_at(a) / 365 * (b - a)`; the balance is held constant and
nothing is rounded per sub-interval. -/
def splitIntervalsSum (balance base_rate : ℚ) (rate_changes : List RateChange)
    (prev_date payment_date : Date) (bs : List Date) : ℚ :=
  (((prev_date :: bs).zip (bs ++ [payment_date])).map fun ab =>
    balance * get_rate_at_date ab.1 base_rate rate_changes / 365
      * ((ab.2 - ab.1 : ℤ) : ℚ)).sum

theorem splitAccum_eq_sum (balance base_rate : ℚ) (rate_changes : List RateChange)
    (payment_date : Date) :
    ∀ (bs : List Date) (total : ℚ) (start : Date),
      splitAccum balance base_rate rate_changes payment_date total start bs =
        total + splitIntervalsSum balance base_rate rate_changes start payment_date bs := by
  intro bs
  induction bs with
  | nil =>
    intro total start
    simp [splitAccum, splitIntervalsSum]
  | cons b rest ih =>
    intro total start
    rw [splitAccum, ih]
    simp only [splitIntervalsSum, List.zip_cons_cons, List.map_cons, List.sum_cons,
      List.cons_append]
    ring

theorem interiorBoundaries_eq_nil_iff (rate_changes : List RateChange)
    (prev_date payment_date : Date) :
    interiorBoundaries rate_changes prev_date payment_date = [] ↔
      ∀ rc ∈ rate_changes,
        ¬(prev_date < rc.effective_date ∧ rc.effective_date < payment_date) := by
  rw [List.eq_nil_iff_forall_not_mem]
  constructor
  · intro h rc hrc hcond
    exact h rc.effective_date (by
      rw [interiorBoundaries, List.mem_mergeSort, List.mem_filterMap]
      exact ⟨rc, hrc, by simp [hcond]⟩)
  · intro h d hd
    rw [interiorBoundaries, List.mem_mergeSort, List.mem_filterMap] at hd
    obtain ⟨rc, hrc, hif⟩ := hd
    by_cases hc : prev_date < rc.effective_date ∧ rc.effective_date < payment_date
    · exact h rc hrc hc
    · simp [hc] at hif

/-- C2: when no rate-change date lies strictly inside the open period, the
interest is the simple one-shot formula; when one or more do, the period is
split at the sorted interior boundaries, each sub-interval contributes
`balance * sub_rate / 365 * days` with the balance held constant, and only
the final sum is rounded to two decimals.  The returned rate is always the
end-of-period rate. -/
theorem claim_C2 (balance : ℚ) (prev_date payment_date : Date) (base_rate : ℚ)
    (rate_changes : List RateChange) (frequency : Frequency) :
    (calculate_period_interest balance prev_date payment_date base_rate rate_changes
        frequency).2 = get_rate_at_date payment_date base_rate rate_changes ∧
    ((∀ rc ∈ rate_changes,
        ¬(prev_date < rc.effective_date ∧ rc.effective_date < payment_date)) →
      (calculate_period_interest balance prev_date payment_date base_rate rate_changes
          frequency).1 =
        round2 (balance * get_rate_at_date payment_date base_rate rate_changes /
          (periods_per_year frequency : ℚ))) ∧
    ((∃ rc ∈ rate_changes,
        prev_date < rc.effective_date ∧ rc.effective_date < payment_date) →
      (calculate_period_interest balance prev_date payment_date base_rate rate_changes
          frequency).1 =
        round2 (splitIntervalsSum balance base_rate rate_changes prev_date payment_date
          (interiorBoundaries rate_changes prev_date payment_date))) := by
  refine ⟨?_, ?_, ?_⟩
  · rw [calculate_period_interest]
    split
    · rfl
    · dsimp only
      split
      · rfl
      · rfl
  · intro hnone
    rw [calculate_period_interest]
    split
    · rfl
    · dsimp only
      split
      · rfl
      · rename_i hne hb
        exact absurd ((interiorBoundaries_eq_nil_iff _ _ _).mpr hnone) hb
  · intro hsome
    obtain ⟨rc, hrc, hcond⟩ := hsome
    rw [calculate_period_interest]
    split
    · rename_i hnil
      rw [hnil] at hrc
      exact absurd hrc (List.not_mem_nil rc)
    · dsimp only
      split
      · rename_i hb
        rw [interiorBoundaries_eq_nil_iff] at hb
        exact absurd hcond (hb rc hrc)
      · rw [splitAccum_eq_sum]
        rw [zero_add]

set_option maxRecDepth 40000 in
/-- Witness for C2 at concrete inputs: a rate change outside the open
period leaves the simple formula in force, one strictly inside engages the
365-day split. -/
theorem claim_C2_witness :
    (calculate_period_interest 1000 0 14 (5 / 100) [⟨20, 10 / 100, none⟩]
        .fortnightly).1 = round2 (1000 * (5 / 100) / 26) ∧
    (calculate_period_interest 1000 0 14 (5 / 100) [⟨7, 10 / 100, none⟩]
        .fortnightly).1 =
      round2 (1000 * (5 / 100) / 365 * 7 + (1000 * (10 / 100) / 365 * 7 + 0)) := by
  constructor
  · have h := (claim_C2 1000 0 14 (5 / 100) [⟨20, 10 / 100, none⟩] .fortnightly).2.1
      (by intro rc hrc; fin_cases hrc; simp)
    rw [h]
    have : get_rate_at_date 14 (5 / 100) [⟨20, 10 / 100, none⟩] = 5 / 100 := by
      with_unfolding_all decide
    rw [this]
    norm_num [periods_per_year]
  · have h := (claim_C2 1000 0 14 (5 / 100) [⟨7, 10 / 100, none⟩] .fortnightly).2.2
      ⟨⟨7, 10 / 100, none⟩, by simp, by norm_num⟩
    rw [h]
    with_unfolding_all decide

set_option maxRecDepth 40000 in
/-- C9: the three documented values of `pmt`, and its three branches: the
even split when the rate is approximately zero, the single-payment form at
one period, and the level-payment annuity formula otherwise, each rounded
to two decimals. -/
theorem claim_C9 :
    pmt 0 10 1000 = 100 ∧
    pmt (5 / 100) 1 1000 = 1050 ∧
    pmt (575 / 10000 / 26) 52 30050 = 61239 / 100 ∧
    (∀ (r : ℚ) (n : ℤ) (pv : ℚ), 0 < n → |r| < 1 / 10 ^ 12 →
      pmt r n pv = round2 (pv / (n : ℚ))) ∧
    (∀ (r : ℚ) (pv : ℚ), ¬|r| < 1 / 10 ^ 12 → pmt r 1 pv = round2 (pv * (1 + r))) ∧
    (∀ (r : ℚ) (n : ℤ) (pv : ℚ), 1 < n → ¬|r| < 1 / 10 ^ 12 →
      pmt r n pv =
        round2 (pv * r * (1 + r) ^ n.toNat / ((1 + r) ^ n.toNat - 1))) := by
  refine ⟨?_, ?_, ?_, ?_, ?_, ?_⟩
  · with_unfolding_all decide
  · with_unfolding_all decide
  · rw [pmt]
    rw [if_neg (by norm_num), if_neg (by rw [abs_of_nonneg (by norm_num)]; norm_num),
      if_neg (by norm_num)]
    show round2 (30050 * (575 / 10000 / 26) * (1 + 575 / 10000 / 26) ^ (52 : ℤ).toNat /
      ((1 + 575 / 10000 / 26) ^ (52 : ℤ).toNat - 1)) = 61239 / 100
    have ht : (52 : ℤ).toNat = 52 := rfl
    rw [ht]
    have hval : round2 (30050 * (575 / 10000 / 26) * (1 + 575 / 10000 / 26) ^ 52 /
        ((1 + 575 / 10000 / 26) ^ 52 - 1)) = ((61239 : ℤ) : ℚ) / 100 :=
      round2_eq_of_bounds (by norm_num) (by norm_num)
    rw [hval]
    norm_num
  · intro r n pv hn hr
    rw [pmt]
    rw [if_neg (by omega), if_pos hr]
  · intro r pv hr
    rw [pmt]
    rw [if_neg (by omega), if_neg hr, if_pos rfl]
  · intro r n pv hn hr
    rw [pmt]
    rw [if_neg (by omega), if_neg hr, if_neg (by omega)]

/-- Witness for C9's conditional branches at concrete inputs. -/
theorem claim_C9_witness :
    pmt (1 / 10 ^ 13) 4 200 = round2 (200 / (4 : ℚ)) ∧
    pmt (1 / 2) 1 200 = round2 (200 * (1 + 1 / 2)) ∧
    pmt (1 / 2) 2 200 =
      round2 (200 * (1 / 2) * (1 + 1 / 2) ^ 2 / ((1 + 1 / 2) ^ 2 - 1)) := by
  refine ⟨?_, ?_, ?_⟩
  · exact claim_C9.2.2.2.1 (1 / 10 ^ 13) 4 200 (by norm_num) (by rw [abs_of_nonneg] <;> norm_num)
  · exact claim_C9.2.2.2.2.1 (1 / 2) 200 (by rw [abs_of_nonneg] <;> norm_num)
  · exact claim_C9.2.2.2.2.2 (1 / 2) 2 200 (by norm_num) (by rw [abs_of_nonneg] <;> norm_num)

/-! ## C6: repayment override resolution -/

theorem overrideScan_of_none (qd : Date) :
    ∀ (cur : ℚ) (L : List (Date × ℚ)), (∀ o ∈ L, ¬o.1 ≤ qd) →
      overrideScan qd cur L = cur := by
  intro cur L h
  match L with
  | [] => rfl
  | (e, a) :: t =>
    have he : ¬e ≤ qd := h (e, a) (List.mem_cons_self _ _)
    rw [overrideScan, if_neg (by exact he)]

theorem overrideScan_latest (qd : Date) :
    ∀ (L : List (Date × ℚ)) (cur : ℚ),
      L.Pairwise (fun a b => a.1 ≤ b.1) →
      (∃ o ∈ L, o.1 ≤ qd) →
      ∃ o ∈ L, o.1 ≤ qd ∧ overrideScan qd cur L = o.2 ∧
        ∀ o2 ∈ L, o2.1 ≤ qd → o2.1 ≤ o.1 := by
  intro L
  induction L with
  | nil =>
    rintro cur _ ⟨o, ho, _⟩
    exact absurd ho (List.not_mem_nil o)
  | cons hd t ih =>
    obtain ⟨e, a⟩ := hd
    rintro cur hpair hex
    rw [List.pairwise_cons] at hpair
    by_cases hhd : e ≤ qd
    · by_cases hext : ∃ o ∈ t, o.1 ≤ qd
      · obtain ⟨o, ho, hle, heq, hmax⟩ := ih a hpair.2 hext
        refine ⟨o, List.mem_cons_of_mem _ ho, hle, ?_, ?_⟩
        · rw [overrideScan, if_pos (by exact hhd)]
          exact heq
        · intro o2 ho2 hle2
          rcases List.mem_cons.mp ho2 with h2 | h2
          · rw [h2]
            exact hpair.1 o ho
          · exact hmax o2 h2 hle2
      · push_neg at hext
        refine ⟨(e, a), List.mem_cons_self _ _, hhd, ?_, ?_⟩
        · rw [overrideScan, if_pos (by exact hhd)]
          exact overrideScan_of_none qd a t fun o ho => not_le.mpr (hext o ho)
        · intro o2 ho2 hle2
          rcases List.mem_cons.mp ho2 with h2 | h2
          · rw [h2]
          · exact absurd hle2 (not_le.mpr (hext o2 h2))
    · exfalso
      obtain ⟨o, ho, hle⟩ := hex
      rcases List.mem_cons.mp ho with h2 | h2
      · rw [h2] at hle
        exact hhd hle
      · exact hhd ((hpair.1 o h2).trans hle)

/-- The date-sorted unified override list actually scanned by
`get_repayment_at_date`. -/
def sortedOverrides (rate_changes : List RateChange)
    (repayment_changes : List RepaymentChange) : List (Date × ℚ) :=
  (buildOverrides rate_changes repayment_changes).mergeSort
    (fun a b => decide (a.1 ≤ b.1))

theorem sortedOverrides_pairwise (rate_changes : List RateChange)
    (repayment_changes : List RepaymentChange) :
    (sortedOverrides rate_changes repayment_changes).Pairwise (fun a b => a.1 ≤ b.1) := by
  have h := @List.sorted_mergeSort (Date × ℚ)
    (fun a b => decide (a.1 ≤ b.1))
    (fun a b c hab hbc => by
      simp only [decide_eq_true_eq] at hab hbc ⊢
      exact hab.trans hbc)
    (fun a b => by
      simp only [Bool.or_eq_true, decide_eq_true_eq]
      exact le_total a.1 b.1)
    (buildOverrides rate_changes repayment_changes)
  exact h.imp fun hab => by simpa using hab

theorem mem_sortedOverrides {o : Date × ℚ} (rate_changes : List RateChange)
    (repayment_changes : List RepaymentChange) :
    o ∈ sortedOverrides rate_changes repayment_changes ↔
      o ∈ buildOverrides rate_changes repayment_changes := by
  rw [sortedOverrides, List.mem_mergeSort]

/-- C6: the repayment override lookup merges the two override sources into
one list; an absent base repayment is returned unchanged even when
overrides exist; when no override is dated at or before the query date the
base is returned; otherwise the amount of the latest applicable override
wins. -/
theorem claim_C6 (payment_date : Date) (rate_changes : List RateChange)
    (repayment_changes : List RepaymentChange) :
    get_repayment_at_date payment_date none rate_changes repayment_changes = none ∧
    (∀ base : ℚ,
      (∀ o ∈ buildOverrides rate_changes repayment_changes, ¬o.1 ≤ payment_date) →
      get_repayment_at_date payment_date (some base) rate_changes repayment_changes =
        some base) ∧
    (∀ base : ℚ,
      (∃ o ∈ buildOverrides rate_changes repayment_changes, o.1 ≤ payment_date) →
      ∃ o ∈ buildOverrides rate_changes repayment_changes, o.1 ≤ payment_date ∧
        get_repayment_at_date payment_date (some base) rate_changes repayment_changes =
          some o.2 ∧
        ∀ o2 ∈ buildOverrides rate_changes repayment_changes, o2.1 ≤ payment_date →
          o2.1 ≤ o.1) := by
  refine ⟨rfl, ?_, ?_⟩
  · intro base hnone
    rw [get_repayment_at_date]
    split
    · rfl
    · exact congrArg some (overrideScan_of_none payment_date base
        (sortedOverrides rate_changes repayment_changes)
        (fun o ho => hnone o ((mem_sortedOverrides _ _).mp ho)))
  · intro base hex
    obtain ⟨o0, ho0, hle0⟩ := hex
    rw [get_repayment_at_date]
    split
    · rename_i hnil
      rw [hnil] at ho0
      exact absurd ho0 (List.not_mem_nil o0)
    · obtain ⟨o, ho, hle, heq, hmax⟩ := overrideScan_latest payment_date
        (sortedOverrides rate_changes repayment_changes) base
        (sortedOverrides_pairwise _ _)
        ⟨o0, (mem_sortedOverrides _ _).mpr ho0, hle0⟩
      refine ⟨o, (mem_sortedOverrides _ _).mp ho, hle, ?_, ?_⟩
      · exact congrArg some heq
      · intro o2 ho2 hle2
        exact hmax o2 ((mem_sortedOverrides _ _).mpr ho2) hle2

/-- Witness for C6 at concrete inputs: overrides from both sources, queried
before any override, and after both. -/
theorem claim_C6_witness :
    get_repayment_at_date 20 none [⟨10, 5 / 100, some 120⟩] [⟨15, 130⟩] = none ∧
    get_repayment_at_date 5 (some 100) [⟨10, 5 / 100, some 120⟩] [⟨15, 130⟩] =
      some 100 ∧
    ∃ o ∈ buildOverrides [⟨10, 5 / 100, some 120⟩] [⟨15, 130⟩], o.1 ≤ 20 ∧
      get_repayment_at_date 20 (some 100) [⟨10, 5 / 100, some 120⟩] [⟨15, 130⟩] =
        some o.2 ∧
      ∀ o2 ∈ buildOverrides [⟨10, 5 / 100, some 120⟩] [⟨15, 130⟩], o2.1 ≤ 20 →
        o2.1 ≤ o.1 := by
  refine ⟨(claim_C6 20 [⟨10, 5 / 100, some 120⟩] [⟨15, 130⟩]).1, ?_, ?_⟩
  · exact (claim_C6 5 [⟨10, 5 / 100, some 120⟩] [⟨15, 130⟩]).2.1 100
      (by with_unfolding_all decide)
  · exact (claim_C6 20 [⟨10, 5 / 100, some 120⟩] [⟨15, 130⟩]).2.2 100
      ⟨(10, 120), by with_unfolding_all decide, by with_unfolding_all decide⟩

/-! ## C8: the extra-payment window -/

theorem extras_foldl_eq_sum (period_start period_end : Date) :
    ∀ (l : List ExtraPayment) (init : ℚ),
      l.foldl
        (fun total er =>
          if period_start < er.payment_date ∧ er.payment_date ≤ period_end then
            total + er.amount
          else total)
        init =
      init + ((l.filter fun er =>
          decide (period_start < er.payment_date ∧ er.payment_date ≤ period_end)).map
        (fun er => er.amount)).sum := by
  intro l
  induction l with
  | nil => intro init; simp
  | cons hd t ih =>
    intro init
    rw [List.foldl_cons, List.filter_cons]
    by_cases h : period_start < hd.payment_date ∧ hd.payment_date ≤ period_end
    · rw [if_pos h, ih, if_pos (by simpa using h)]
      rw [List.map_cons, List.sum_cons]
      ring
    · rw [if_neg h, ih, if_neg (by simpa using h)]

/-- C8: an extra payment is counted in a period's extra sum exactly when
its date lies in the half-open window `(start_boundary, payment_date]`,
the sum being rounded once to two decimals; the schedule loop feeds each
iteration exactly this sum; period 1's start boundary is one day before
the loan start date, so an extra dated exactly on the start date falls in
period 1's window. -/
theorem claim_C8 :
    (∀ (period_start period_end : Date) (extras : List ExtraPayment),
      get_extras_for_period period_start period_end extras =
        round2 (((extras.filter fun er =>
            decide (period_start < er.payment_date ∧ er.payment_date ≤ period_end)).map
          (fun er => er.amount)).sum)) ∧
    (∀ (P : LoanParams) (i : ℕ) (balance : ℚ),
      (preCapState P i balance).extra =
        get_extras_for_period (extraStart P i) (payDate P i) P.extra_repayments) ∧
    (∀ P : LoanParams, extraStart P 1 = P.start_date - 1) ∧
    (∀ (P : LoanParams) (i : ℕ), 2 ≤ i → extraStart P i = payDate P (i - 1)) ∧
    (∀ (P : LoanParams) (e : ExtraPayment), e.payment_date = P.start_date →
      P.start_date ≤ payDate P 1 →
      extraStart P 1 < e.payment_date ∧ e.payment_date ≤ payDate P 1) := by
  refine ⟨?_, ?_, ?_, ?_, ?_⟩
  · intro ps pe extras
    rw [get_extras_for_period]
    split
    · rename_i hnil
      rw [hnil]
      simp [round2_zero]
    · rw [extras_foldl_eq_sum, zero_add]
  · intro P i balance
    rfl
  · intro P
    rw [extraStart, if_neg (by omega), prevDate, if_neg (by omega)]
  · intro P i hi
    rw [extraStart, if_pos (by omega), prevDate, if_pos (by omega), payDate]
    have : ((i - 1 : ℕ) : ℤ) = (i : ℤ) - 1 := by omega
    rw [this]
  · intro P e he hle
    rw [extraStart, if_neg (by omega), prevDate, if_neg (by omega), he]
    exact ⟨sub_one_lt P.start_date, hle⟩

/-- A one-period weekly loan starting on day 0, used by concrete witnesses. -/
def tinyLoan : LoanParams :=
  { principal := 100, annual_rate := 0, frequency := .weekly, start_date := 0, loan_term := 1 }

/-- Witness for C8: an extra dated exactly on the loan start date of a
weekly loan is included in period 1's window, and the window sum matches
the filtered total. -/
theorem claim_C8_witness :
    get_extras_for_period (-1) 7 [⟨0, 10⟩, ⟨8, 99⟩] =
      round2 ((([⟨0, 10⟩, ⟨8, 99⟩] : List ExtraPayment).filter fun er =>
        decide ((-1 : ℤ) < er.payment_date ∧ er.payment_date ≤ 7)).map
          (fun er => er.amount)).sum ∧
    extraStart tinyLoan 1 = -1 ∧
    (extraStart tinyLoan 1 < 0 ∧ (0 : ℤ) ≤ payDate tinyLoan 1) := by
  refine ⟨claim_C8.1 (-1) 7 [⟨0, 10⟩, ⟨8, 99⟩], ?_, ?_⟩
  · exact claim_C8.2.2.1 tinyLoan
  · have h := claim_C8.2.2.2.2 tinyLoan ⟨0, 10⟩ rfl (by with_unfolding_all decide)
    exact ⟨h.1, h.2⟩

/-! ## Engine lemmas: the capped principal never exceeds the balance -/

theorem applyCap_total_le (h : Bool) (interest balance : ℚ) (s : PayState) :
    (applyCap h interest balance s).total ≤ balance ∨
      (applyCap h interest balance s) = s ∧ ¬s.total > balance := by
  rw [applyCap]
  dsimp only
  split_ifs with h1 h2 h3
  · exact Or.inl le_rfl
  · exact Or.inl le_rfl
  · exact Or.inl le_rfl
  · exact Or.inr ⟨rfl, h1⟩

theorem applyCap_total_le_balance (h : Bool) (interest balance : ℚ) (s : PayState) :
    (applyCap h interest balance s).total ≤ balance := by
  rcases applyCap_total_le h interest balance s with h1 | ⟨heq, hle⟩
  · exact h1
  · rw [heq]
    exact le_of_not_lt hle

theorem applyFinalCap_total (h : Bool) (interest balance : ℚ) (s : PayState) :
    (applyFinalCap h interest balance s).total = s.total := by
  rw [applyFinalCap]
  dsimp only
  split_ifs <;> rfl

theorem applyFinalCap_extra (h : Bool) (interest balance : ℚ) (s : PayState) :
    (applyFinalCap h interest balance s).extra = s.extra := by
  rw [applyFinalCap]
  dsimp only
  split_ifs <;> rfl

theorem applyFinalCap_principal_from (h : Bool) (interest balance : ℚ) (s : PayState) :
    (applyFinalCap h interest balance s).principal_from = s.principal_from := by
  rw [applyFinalCap]
  dsimp only
  split_ifs <;> rfl

theorem applyFinalCap_actual (h : Bool) (interest balance : ℚ) (s : PayState) :
    (applyFinalCap h interest balance s).actual = s.actual := by
  rw [applyFinalCap]
  dsimp only
  split_ifs <;> rfl

theorem stepState_total_le (P : LoanParams) (i : ℕ) (balance : ℚ) :
    (stepState P i balance).total ≤ balance := by
  rw [stepState, applyFinalCap_total]
  exact applyCap_total_le_balance _ _ _ _

/-! ## Engine lemmas: shape of an emitted row -/

theorem stepRow_number (P : LoanParams) (i : ℕ) (balance : ℚ) :
    (stepRow P i balance).1.number = i := rfl

theorem stepRow_opening (P : LoanParams) (i : ℕ) (balance : ℚ) :
    (stepRow P i balance).1.opening_balance = balance := rfl

theorem stepRow_closing_def (P : LoanParams) (i : ℕ) (balance : ℚ) :
    (stepRow P i balance).1.closing_balance =
      (if round2 (balance - (stepState P i balance).total) < ZERO_THRESHOLD then 0
       else round2 (balance - (stepState P i balance).total)) := rfl

theorem stepRow_closing_nonneg (P : LoanParams) (i : ℕ) (balance : ℚ) :
    0 ≤ (stepRow P i balance).1.closing_balance := by
  rw [stepRow_closing_def]
  split
  · exact le_rfl
  · exact round2_nonneg (by linarith [stepState_total_le P i balance])

theorem stepRow_closing_cases (P : LoanParams) (i : ℕ) (balance : ℚ) :
    (stepRow P i balance).1.closing_balance = 0 ∨
      ZERO_THRESHOLD ≤ (stepRow P i balance).1.closing_balance := by
  rw [stepRow_closing_def]
  split
  · exact Or.inl rfl
  · rename_i hlt
    exact Or.inr (le_of_not_lt hlt)

/-! ## Engine lemmas: the schedule loop -/

theorem scheduleLoop_zero (P : LoanParams) (i : ℕ) (balance : ℚ) :
    scheduleLoop P i 0 balance = ([], 0, 0, true) := rfl

theorem scheduleLoop_succ (P : LoanParams) (i fuel : ℕ) (balance : ℚ) :
    scheduleLoop P i (fuel + 1) balance =
      if balance < ZERO_THRESHOLD then ([], 0, 0, false)
      else if (stepRow P i balance).1.closing_balance ≤ 0 then
        ([(stepRow P i balance).1], (stepRow P i balance).1.interest,
          (stepRow P i balance).2 + (stepRow P i balance).1.extra, false)
      else
        ((stepRow P i balance).1 ::
            (scheduleLoop P (i + 1) fuel (stepRow P i balance).1.closing_balance).1,
          (stepRow P i balance).1.interest +
            (scheduleLoop P (i + 1) fuel (stepRow P i balance).1.closing_balance).2.1,
          (stepRow P i balance).2 + (stepRow P i balance).1.extra +
            (scheduleLoop P (i + 1) fuel (stepRow P i balance).1.closing_balance).2.2.1,
          (scheduleLoop P (i + 1) fuel (stepRow P i balance).1.closing_balance).2.2.2) := rfl

/-- Every emitted row is the `stepRow` of its own period number and opening
balance, and every opening balance is at or above the one-cent threshold. -/
theorem scheduleLoop_rows_shape (P : LoanParams) :
    ∀ (fuel i : ℕ) (balance : ℚ), ∀ r ∈ (scheduleLoop P i fuel balance).1,
      r = (stepRow P r.number r.opening_balance).1 ∧
        ZERO_THRESHOLD ≤ r.opening_balance := by
  intro fuel
  induction fuel with
  | zero =>
    intro i balance r hr
    rw [scheduleLoop_zero] at hr
    exact absurd hr (List.not_mem_nil r)
  | succ fuel ih =>
    intro i balance r hr
    rw [scheduleLoop_succ] at hr
    by_cases h0 : balance < ZERO_THRESHOLD
    · rw [if_pos h0] at hr
      exact absurd hr (List.not_mem_nil r)
    · rw [if_neg h0] at hr
      by_cases h1 : (stepRow P i balance).1.closing_balance ≤ 0
      · rw [if_pos h1] at hr
        rcases List.mem_singleton.mp hr with rfl
        refine ⟨?_, le_of_not_lt h0⟩
        rw [stepRow_number, stepRow_opening]
      · rw [if_neg h1] at hr
        rcases List.mem_cons.mp hr with rfl | hmem
        · refine ⟨?_, le_of_not_lt h0⟩
          rw [stepRow_number, stepRow_opening]
        · exact ih (i + 1) (stepRow P i balance).1.closing_balance r hmem

/-- Row numbers are consecutive from the starting period index. -/
theorem scheduleLoop_numbers (P : LoanParams) :
    ∀ (fuel i : ℕ) (balance : ℚ),
      (scheduleLoop P i fuel balance).1.map (fun r => r.number) =
        List.range' i (scheduleLoop P i fuel balance).1.length := by
  intro fuel
  induction fuel with
  | zero =>
    intro i balance
    rw [scheduleLoop_zero]
    rfl
  | succ fuel ih =>
    intro i balance
    rw [scheduleLoop_succ]
    by_cases h0 : balance < ZERO_THRESHOLD
    · rw [if_pos h0]
      rfl
    · rw [if_neg h0]
      by_cases h1 : (stepRow P i balance).1.closing_balance ≤ 0
      · rw [if_pos h1]
        simp [stepRow_number, List.range']
      · rw [if_neg h1]
        simp only [List.map_cons, List.length_cons, List.range'_succ, stepRow_number]
        exact congrArg _ (ih (i + 1) (stepRow P i balance).1.closing_balance)

/-- The first emitted row opens at the loop's incoming balance. -/
theorem scheduleLoop_head_opening (P : LoanParams) :
    ∀ (fuel i : ℕ) (balance : ℚ) (r : ScheduleRow),
      (scheduleLoop P i fuel balance).1.head? = some r →
      r.opening_balance = balance := by
  intro fuel i balance r hr
  match fuel with
  | 0 =>
    rw [scheduleLoop_zero] at hr
    exact absurd hr (by simp)
  | fuel + 1 =>
    rw [scheduleLoop_succ] at hr
    by_cases h0 : balance < ZERO_THRESHOLD
    · rw [if_pos h0] at hr
      exact absurd hr (by simp)
    · rw [if_neg h0] at hr
      by_cases h1 : (stepRow P i balance).1.closing_balance ≤ 0
      · rw [if_pos h1] at hr
        have : r = (stepRow P i balance).1 := by
          simpa [List.head?] using hr.symm
        rw [this, stepRow_opening]
      · rw [if_neg h1] at hr
        have : r = (stepRow P i balance).1 := by
          simpa [List.head?] using hr.symm
        rw [this, stepRow_opening]

/-- Consecutive rows chain: each row opens at the previous row's close. -/
theorem scheduleLoop_chain (P : LoanParams) :
    ∀ (fuel i : ℕ) (balance : ℚ),
      List.Chain' (fun a b => b.opening_balance = a.closing_balance)
        (scheduleLoop P i fuel balance).1 := by
  intro fuel
  induction fuel with
  | zero =>
    intro i balance
    rw [scheduleLoop_zero]
    exact List.chain'_nil
  | succ fuel ih =>
    intro i balance
    rw [scheduleLoop_succ]
    by_cases h0 : balance < ZERO_THRESHOLD
    · rw [if_pos h0]
      exact List.chain'_nil
    · rw [if_neg h0]
      by_cases h1 : (stepRow P i balance).1.closing_balance ≤ 0
      · rw [if_pos h1]
        exact List.chain'_singleton _
      · rw [if_neg h1]
        rw [List.chain'_cons']
        refine ⟨?_, ih (i + 1) (stepRow P i balance).1.closing_balance⟩
        intro b hb
        exact scheduleLoop_head_opening P fuel (i + 1)
          (stepRow P i balance).1.closing_balance b hb

theorem cons_getLast?_of_ne_nil {α : Type} {l : List α} (a : α) (h : l ≠ []) :
    (a :: l).getLast? = l.getLast? := by
  match l, h with
  | b :: t, _ => exact List.getLast?_cons_cons

/-- Every emitted row either closes at or above the one-cent threshold or
is the final row of the loop's output. -/
theorem scheduleLoop_low_close_is_last (P : LoanParams) :
    ∀ (fuel i : ℕ) (balance : ℚ), ∀ r ∈ (scheduleLoop P i fuel balance).1,
      ZERO_THRESHOLD ≤ r.closing_balance ∨
        (scheduleLoop P i fuel balance).1.getLast? = some r := by
  intro fuel
  induction fuel with
  | zero =>
    intro i balance r hr
    rw [scheduleLoop_zero] at hr
    exact absurd hr (List.not_mem_nil r)
  | succ fuel ih =>
    intro i balance r hr
    rw [scheduleLoop_succ] at hr ⊢
    by_cases h0 : balance < ZERO_THRESHOLD
    · rw [if_pos h0] at hr
      exact absurd hr (List.not_mem_nil r)
    · rw [if_neg h0] at hr ⊢
      by_cases h1 : (stepRow P i balance).1.closing_balance ≤ 0
      · rw [if_pos h1] at hr ⊢
        rcases List.mem_singleton.mp hr with rfl
        exact Or.inr rfl
      · rw [if_neg h1] at hr ⊢
        rcases List.mem_cons.mp hr with rfl | hmem
        · rcases stepRow_closing_cases P i balance with hc | hc
          · rw [hc] at h1
            exact absurd le_rfl h1
          · exact Or.inl hc
        · rcases ih (i + 1) (stepRow P i balance).1.closing_balance r hmem with hc | hc
          · exact Or.inl hc
          · refine Or.inr ?_
            have hne : (scheduleLoop P (i + 1) fuel
                (stepRow P i balance).1.closing_balance).1 ≠ [] := by
              intro hcon
              rw [hcon] at hc
              exact absurd hc (by simp)
            rw [cons_getLast?_of_ne_nil _ hne]
            exact hc

/-- The loop runs to the iteration cap exactly when it emits one row per
unit of fuel. -/
theorem scheduleLoop_cap_length (P : LoanParams) :
    ∀ (fuel i : ℕ) (balance : ℚ),
      (scheduleLoop P i fuel balance).2.2.2 = true →
      (scheduleLoop P i fuel balance).1.length = fuel := by
  intro fuel
  induction fuel with
  | zero =>
    intro i balance _
    rw [scheduleLoop_zero]
    rfl
  | succ fuel ih =>
    intro i balance hcap
    rw [scheduleLoop_succ] at hcap ⊢
    by_cases h0 : balance < ZERO_THRESHOLD
    · rw [if_pos h0] at hcap
      exact absurd hcap (by simp)
    · rw [if_neg h0] at hcap ⊢
      by_cases h1 : (stepRow P i balance).1.closing_balance ≤ 0
      · rw [if_pos h1] at hcap
        exact absurd hcap (by simp)
      · rw [if_neg h1] at hcap ⊢
        have := ih (i + 1) (stepRow P i balance).1.closing_balance (by simpa using hcap)
        simpa using this

/-- If the loop stopped by paying off (no iteration-cap exhaustion) and
emitted at least one row, the last row closes at exactly zero. -/
theorem scheduleLoop_last_zero (P : LoanParams) :
    ∀ (fuel i : ℕ) (balance : ℚ),
      (scheduleLoop P i fuel balance).2.2.2 = false →
      ∀ r, (scheduleLoop P i fuel balance).1.getLast? = some r →
        r.closing_balance = 0 := by
  intro fuel
  induction fuel with
  | zero =>
    intro i balance _ r hr
    rw [scheduleLoop_zero] at hr
    exact absurd hr (by simp)
  | succ fuel ih =>
    intro i balance hcap r hr
    rw [scheduleLoop_succ] at hcap hr
    by_cases h0 : balance < ZERO_THRESHOLD
    · rw [if_pos h0] at hr
      exact absurd hr (by simp)
    · rw [if_neg h0] at hcap hr
      by_cases h1 : (stepRow P i balance).1.closing_balance ≤ 0
      · rw [if_pos h1] at hr
        have hr2 : r = (stepRow P i balance).1 := by
          simpa using hr.symm
        rw [hr2]
        have := stepRow_closing_nonneg P i balance
        linarith
      · rw [if_neg h1] at hcap hr
        have hne : (scheduleLoop P (i + 1) fuel
            (stepRow P i balance).1.closing_balance).1 ≠ [] := by
          intro hcon
          match fuel, hcap with
          | fuel + 1, hcap =>
            rw [scheduleLoop_succ] at hcon
            have hz : ¬(stepRow P i balance).1.closing_balance < ZERO_THRESHOLD := by
              rcases stepRow_closing_cases P i balance with hc | hc
              · exact absurd (le_of_eq hc) h1
              · exact not_lt.mpr hc
            rw [if_neg hz] at hcon
            by_cases hz2 : (stepRow P (i + 1)
                (stepRow P i balance).1.closing_balance).1.closing_balance ≤ 0
            · rw [if_pos hz2] at hcon
              exact absurd hcon (by simp)
            · rw [if_neg hz2] at hcon
              exact absurd hcon (by simp)
        rw [cons_getLast?_of_ne_nil _ hne] at hr
        exact ih (i + 1) (stepRow P i balance).1.closing_balance
          (by simpa using hcap) r hr

/-! ## C1: schedule row invariants -/

/-- C1: rows are numbered contiguously `1..N` with `N = total_repayments`,
each row opens at the previous row's closing balance, and no opening or
closing balance is ever negative. -/
theorem claim_C1 (P : LoanParams) (_hp : 0 < P.principal) :
    (calculate_schedule P).total_repayments = (calculate_schedule P).rows.length ∧
    (calculate_schedule P).rows.map (fun r => r.number) =
      List.range' 1 (calculate_schedule P).rows.length ∧
    List.Chain' (fun a b => b.opening_balance = a.closing_balance)
      (calculate_schedule P).rows ∧
    ∀ r ∈ (calculate_schedule P).rows,
      0 ≤ r.opening_balance ∧ 0 ≤ r.closing_balance := by
  refine ⟨rfl, ?_, ?_, ?_⟩
  · exact scheduleLoop_numbers P MAX_ITERATIONS 1 (round2 P.principal)
  · exact scheduleLoop_chain P MAX_ITERATIONS 1 (round2 P.principal)
  · intro r hr
    obtain ⟨hre, hthr⟩ :=
      scheduleLoop_rows_shape P MAX_ITERATIONS 1 (round2 P.principal) r hr
    have h0 : (0 : ℚ) < ZERO_THRESHOLD := by norm_num [ZERO_THRESHOLD]
    constructor
    · linarith
    · have : 0 ≤ (stepRow P r.number r.opening_balance).1.closing_balance :=
        stepRow_closing_nonneg P r.number r.opening_balance
      rw [← hre] at this
      exact this

/-- Witness for C1 at a concrete one-row loan. -/
theorem claim_C1_witness :
    (calculate_schedule tinyLoan).total_repayments =
      (calculate_schedule tinyLoan).rows.length ∧
    (calculate_schedule tinyLoan).rows.map (fun r => r.number) =
      List.range' 1 (calculate_schedule tinyLoan).rows.length ∧
    List.Chain' (fun a b => b.opening_balance = a.closing_balance)
      (calculate_schedule tinyLoan).rows := by
  have h := claim_C1 tinyLoan (by norm_num [tinyLoan])
  exact ⟨h.1, h.2.1, h.2.2.1⟩

/-! ## C5: warning-free schedules end at a zero balance -/

/-- A floating-repayment loan whose term exceeds the 2000-iteration cap:
the loop exhausts the cap, sets no warning (the warning branch requires a
fixed repayment), and leaves a positive final balance. -/
def C5P : LoanParams :=
  { principal := 100, annual_rate := 0, frequency := .weekly, start_date := 0,
    loan_term := 1000000 }

set_option maxRecDepth 100000 in
set_option maxHeartbeats 40000000 in
/-- Counterexample to C5 as stated: with no fixed repayment and a term
longer than the iteration cap, `calculate_schedule` returns 2000 rows, no
warning, and a final closing balance of 100, not 0. -/
theorem claim_C5_counterexample :
    (calculate_schedule C5P).warning = none ∧
    (calculate_schedule C5P).rows.getLast?.map (fun r => r.closing_balance) =
      some 100 ∧
    (calculate_schedule C5P).rows.getLast?.map (fun r => r.closing_balance) ≠
      some 0 := by
  with_unfolding_all decide

/-- C5 (amended): when the warning is absent and the schedule terminated
before the 2000-iteration cap, the final closing balance is exactly 0. -/
theorem claim_C5 (P : LoanParams)
    (_hw : (calculate_schedule P).warning = none)
    (hlen : (calculate_schedule P).total_repayments < MAX_ITERATIONS) :
    ∀ r, (calculate_schedule P).rows.getLast? = some r →
      r.closing_balance = 0 := by
  intro r hr
  have hcap : (scheduleLoop P 1 MAX_ITERATIONS (round2 P.principal)).2.2.2 = false := by
    rcases Bool.eq_false_or_eq_true
        (scheduleLoop P 1 MAX_ITERATIONS (round2 P.principal)).2.2.2 with h | h
    · have hlen2 :
          (scheduleLoop P 1 MAX_ITERATIONS (round2 P.principal)).1.length =
            MAX_ITERATIONS :=
        scheduleLoop_cap_length P MAX_ITERATIONS 1 (round2 P.principal) h
      have heq : (calculate_schedule P).total_repayments =
          (scheduleLoop P 1 MAX_ITERATIONS (round2 P.principal)).1.length := rfl
      rw [heq, hlen2] at hlen
      exact absurd hlen (lt_irrefl _)
    · exact h
  exact scheduleLoop_last_zero P MAX_ITERATIONS 1 (round2 P.principal) hcap r hr

/-- Witness for C5 (amended) at a concrete one-row loan. -/
theorem claim_C5_witness :
    (calculate_schedule tinyLoan).rows.getLast? =
      some ⟨1, 7, 100, 100, 0, 0, 100, 0, 0, 0⟩ ∧
    (⟨1, 7, 100, 100, 0, 0, 100, 0, 0, 0⟩ : ScheduleRow).closing_balance = 0 := by
  constructor
  · with_unfolding_all decide
  · exact claim_C5 tinyLoan (by with_unfolding_all decide)
      (by with_unfolding_all decide) ⟨1, 7, 100, 100, 0, 0, 100, 0, 0, 0⟩
      (by with_unfolding_all decide)

/-! ## C3: overshoot capping -/

/-- C3: whenever the uncapped principal for a period exceeds the opening
balance, the cap engages: if the extra payment can absorb the whole
overshoot it is reduced by exactly the overshoot (payment untouched);
otherwise the payment is recomputed as `interest + balance - extra`; in
both cases the row closes at exactly 0 and is the schedule's final row. -/
theorem claim_C3 (P : LoanParams) :
    ∀ r ∈ (calculate_schedule P).rows,
      (preCapState P r.number r.opening_balance).total > r.opening_balance →
      ((preCapState P r.number r.opening_balance).extra > 0 ∧
          (preCapState P r.number r.opening_balance).extra ≥
            (preCapState P r.number r.opening_balance).total - r.opening_balance →
        r.extra = round2 ((preCapState P r.number r.opening_balance).extra -
            ((preCapState P r.number r.opening_balance).total - r.opening_balance)) ∧
          r.principal = (preCapState P r.number r.opening_balance).principal_from) ∧
      (¬((preCapState P r.number r.opening_balance).extra > 0 ∧
          (preCapState P r.number r.opening_balance).extra ≥
            (preCapState P r.number r.opening_balance).total - r.opening_balance) →
        r.principal =
            round2 (round2 ((periodInterest P r.number r.opening_balance).1 +
                r.opening_balance - (preCapState P r.number r.opening_balance).extra) -
              (periodInterest P r.number r.opening_balance).1) ∧
          r.extra = (preCapState P r.number r.opening_balance).extra) ∧
      r.closing_balance = 0 ∧
      (calculate_schedule P).rows.getLast? = some r := by
  intro r hr hcap
  obtain ⟨hre, hthr⟩ :=
    scheduleLoop_rows_shape P MAX_ITERATIONS 1 (round2 P.principal) r hr
  have htot : (stepState P r.number r.opening_balance).total = r.opening_balance := by
    rw [stepState, applyFinalCap_total, applyCap]
    dsimp only
    rw [if_pos hcap]
    split_ifs <;> rfl
  have hclose : r.closing_balance = 0 := by
    have : (stepRow P r.number r.opening_balance).1.closing_balance = 0 := by
      rw [stepRow_closing_def, htot, sub_self, round2_zero,
        if_pos (by norm_num [ZERO_THRESHOLD])]
    rw [← hre] at this
    exact this
  refine ⟨?_, ?_, hclose, ?_⟩
  · intro habs
    constructor
    · have : (stepRow P r.number r.opening_balance).1.extra =
          round2 ((preCapState P r.number r.opening_balance).extra -
            ((preCapState P r.number r.opening_balance).total - r.opening_balance)) := by
        show (stepState P r.number r.opening_balance).extra = _
        rw [stepState, applyFinalCap_extra, applyCap]
        dsimp only
        rw [if_pos hcap, if_pos habs]
      rw [← hre] at this
      exact this
    · have : (stepRow P r.number r.opening_balance).1.principal =
          (preCapState P r.number r.opening_balance).principal_from := by
        show (stepState P r.number r.opening_balance).principal_from = _
        rw [stepState, applyFinalCap_principal_from, applyCap]
        dsimp only
        rw [if_pos hcap, if_pos habs]
      rw [← hre] at this
      exact this
  · intro habs
    constructor
    · have : (stepRow P r.number r.opening_balance).1.principal =
          round2 (round2 ((periodInterest P r.number r.opening_balance).1 +
              r.opening_balance - (preCapState P r.number r.opening_balance).extra) -
            (periodInterest P r.number r.opening_balance).1) := by
        show (stepState P r.number r.opening_balance).principal_from = _
        rw [stepState, applyFinalCap_principal_from, applyCap]
        dsimp only
        rw [if_pos hcap, if_neg habs]
      rw [← hre] at this
      exact this
    · have : (stepRow P r.number r.opening_balance).1.extra =
          (preCapState P r.number r.opening_balance).extra := by
        show (stepState P r.number r.opening_balance).extra = _
        rw [stepState, applyFinalCap_extra, applyCap]
        dsimp only
        rw [if_pos hcap, if_neg habs]
      rw [← hre] at this
      exact this
  · rcases scheduleLoop_low_close_is_last P MAX_ITERATIONS 1 (round2 P.principal)
        r hr with hge | hlast
    · rw [hclose] at hge
      norm_num [ZERO_THRESHOLD] at hge
    · exact hlast

/-- A loan with an extra payment far larger than the balance, for the C3
witness. -/
def C3P : LoanParams :=
  { principal := 100, annual_rate := 0, frequency := .weekly, start_date := 0,
    loan_term := 10, extra_repayments := [⟨3, 500⟩] }

/-- The single row C3P's schedule emits. -/
def C3row : ScheduleRow := ⟨1, 7, 100, 10, 0, 0, 10, 0, 90, 0⟩

/-- Witness for C3: the oversized extra payment is reduced to exactly the
remaining balance's needs, the row closes at 0 and is the final row. -/
theorem claim_C3_witness :
    C3row.extra = round2 ((preCapState C3P C3row.number C3row.opening_balance).extra -
      ((preCapState C3P C3row.number C3row.opening_balance).total -
        C3row.opening_balance)) ∧
    C3row.closing_balance = 0 ∧
    (calculate_schedule C3P).rows.getLast? = some C3row := by
  have h := claim_C3 C3P C3row (by with_unfolding_all decide)
    (by with_unfolding_all decide)
  exact ⟨(h.1 (by with_unfolding_all decide)).1, h.2.2.1, h.2.2.2⟩


/-! ## C7: the scheduled-vs-calculated dead band -/

/-- A one-period loan whose fixed repayment sits inside the ten-cent dead
band but overshoots the balance, for the C7 counterexample. -/
def C7P : LoanParams :=
  { principal := 100, annual_rate := 0, frequency := .weekly, start_date := 0,
    loan_term := 1, fixed_repayment := some (10005 / 100) }

set_option maxRecDepth 100000 in
/-- Counterexample to C7 as stated: in C7P's only row the scheduled
repayment 100.05 applies and differs from the calculated annuity payment
100 by less than 0.10, yet the emitted row's `calculated_pmt` is 100, not
the scheduled payment: the final-period capping overwrites the dead-band
assignment. -/
theorem claim_C7_counterexample :
    periodRepayment C7P 1 = some (10005 / 100) ∧
    |10005 / 100 - calculatedPayment C7P 1 100| < 10 / 100 ∧
    |round2 (10005 / 100 - calculatedPayment C7P 1 100)| < 10 / 100 ∧
    (calculate_schedule C7P).rows.map
      (fun r => (r.number, r.opening_balance, r.calculated_pmt, r.additional)) =
      [(1, 100, 100, 0)] ∧
    (100 : ℚ) ≠ 10005 / 100 := by
  with_unfolding_all decide

/-- C7 (amended): in iterations where a scheduled repayment `s` applies and
the uncapped principal stays strictly below the balance (so neither capping
branch rewrites the payment fields), the emitted row reports
`additional = 0` and `calculated_pmt = s` when the rounded delta
`round2 (s - calculated)` is below ten cents in absolute value, and
`additional = round2 (s - calculated)` otherwise. -/
theorem claim_C7 (P : LoanParams) :
    ∀ r ∈ (calculate_schedule P).rows, ∀ s : ℚ,
      periodRepayment P r.number = some s →
      (preCapState P r.number r.opening_balance).total < r.opening_balance →
      ((|round2 (s - calculatedPayment P r.number r.opening_balance)| < 10 / 100 →
          r.additional = 0 ∧ r.calculated_pmt = s) ∧
       (¬|round2 (s - calculatedPayment P r.number r.opening_balance)| < 10 / 100 →
          r.additional = round2 (s - calculatedPayment P r.number r.opening_balance))) := by
  intro r hr s hrep hlt
  obtain ⟨hre, hthr⟩ :=
    scheduleLoop_rows_shape P MAX_ITERATIONS 1 (round2 P.principal) r hr
  have hnc : ¬(preCapState P r.number r.opening_balance).total > r.opening_balance :=
    not_lt.mpr (le_of_lt hlt)
  have hstep : stepState P r.number r.opening_balance =
      preCapState P r.number r.opening_balance := by
    rw [stepState, applyCap, if_neg hnc, applyFinalCap]
    dsimp only
    rw [if_neg]
    exact not_le.mpr hlt
  have hadd : r.additional = (preCapState P r.number r.opening_balance).additional := by
    have : (stepRow P r.number r.opening_balance).1.additional =
        (preCapState P r.number r.opening_balance).additional := by
      show (stepState P r.number r.opening_balance).additional = _
      rw [hstep]
    rw [← hre] at this
    exact this
  have hcalc : r.calculated_pmt =
      (preCapState P r.number r.opening_balance).calculated := by
    have : (stepRow P r.number r.opening_balance).1.calculated_pmt =
        (preCapState P r.number r.opening_balance).calculated := by
      show (stepState P r.number r.opening_balance).calculated = _
      rw [hstep]
    rw [← hre] at this
    exact this
  have hdead : (preCapState P r.number r.opening_balance).additional =
        (deadband (periodRepayment P r.number)
          (calculatedPayment P r.number r.opening_balance)).2.1 ∧
      (preCapState P r.number r.opening_balance).calculated =
        (deadband (periodRepayment P r.number)
          (calculatedPayment P r.number r.opening_balance)).2.2 :=
    ⟨rfl, rfl⟩
  constructor
  · intro hband
    rw [hadd, hcalc, hdead.1, hdead.2, hrep, deadband]
    rw [if_pos hband]
    exact ⟨rfl, rfl⟩
  · intro hband
    rw [hadd, hdead.1, hrep, deadband]
    rw [if_neg hband]

/-- A ten-period loan with a fixed repayment five cents above the annuity
payment, for the C7 witness (dead-band branch). -/
def C7W1 : LoanParams :=
  { principal := 1000, annual_rate := 0, frequency := .weekly, start_date := 0,
    loan_term := 10, fixed_repayment := some (10005 / 100) }

/-- Row 1 of C7W1's schedule. -/
def C7W1row : ScheduleRow :=
  ⟨1, 7, 1000, 10005 / 100, 0, 0, 10005 / 100, 0, 0, 89995 / 100⟩

/-- A ten-period loan with a fixed repayment far above the annuity payment,
for the C7 witness (reported-additional branch). -/
def C7W2 : LoanParams :=
  { principal := 1000, annual_rate := 0, frequency := .weekly, start_date := 0,
    loan_term := 10, fixed_repayment := some 200 }

/-- Row 1 of C7W2's schedule. -/
def C7W2row : ScheduleRow := ⟨1, 7, 1000, 200, 0, 0, 100, 100, 0, 800⟩

set_option maxRecDepth 100000 in
/-- Witness for C7 (amended), covering both branches of the dead band. -/
theorem claim_C7_witness :
    C7W1row.additional = 0 ∧ C7W1row.calculated_pmt = 10005 / 100 ∧
    C7W2row.additional =
      round2 (200 - calculatedPayment C7W2 C7W2row.number C7W2row.opening_balance) := by
  have hm1 : C7W1row ∈ (calculate_schedule C7W1).rows :=
    List.mem_of_mem_head? (show (calculate_schedule C7W1).rows.head? = some C7W1row by
      with_unfolding_all rfl)
  have hm2 : C7W2row ∈ (calculate_schedule C7W2).rows :=
    List.mem_of_mem_head? (show (calculate_schedule C7W2).rows.head? = some C7W2row by
      with_unfolding_all rfl)
  have h1 := claim_C7 C7W1 C7W1row hm1 (10005 / 100)
    (by with_unfolding_all decide) (by with_unfolding_all decide)
  have h2 := claim_C7 C7W2 C7W2row hm2 200
    (by with_unfolding_all decide) (by with_unfolding_all decide)
  have hb1 := h1.1 (by with_unfolding_all decide)
  exact ⟨hb1.1, hb1.2, h2.2 (by with_unfolding_all decide)⟩


/-! ## C4: the target-payoff solver -/

/-- The keyword parameters of `find_repayment_for_target_date`. -/
structure SolverParams where
  principal : ℚ
  annual_rate : ℚ
  frequency : Frequency
  start_date : Date
  loan_term : Int
  target_date : Date
  rate_changes : List RateChange := []
  extra_repayments : List ExtraPayment := []
  fixed_repayment : Option ℚ := none
  adjust_rate_idx : Option ℕ := none
  repayment_changes : List RepaymentChange := []
  deriving DecidableEq, Repr

/-- The success dict returned by `find_repayment_for_target_date`. -/
structure SolveOk where
  required_repayment : ℚ
  total_interest : ℚ
  total_paid : ℚ
  num_repayments : ℕ
  payoff_date : Date
  deriving DecidableEq, Repr

/-- The per-trial copy of the rate-change list (`calculator.py` lines
389-390): copy the dicts and set `adjusted_repayment` on entry `idx`
only.  Python raises `IndexError` when `idx` is out of range for a
non-empty list; `none` models that raise. -/
def trialRates (rate_changes : List RateChange) (idx : ℕ) (mid : ℚ) :
    Option (List RateChange) :=
  match rate_changes[idx]? with
  | some rc => some (rate_changes.set idx { rc with adjusted_repayment := some mid })
  | none => none

/-- One bisection trial: run a full schedule at the candidate repayment
`mid`, either through the adjusted rate-change entry or as the plain fixed
repayment.  `none` propagates the `IndexError` of an out-of-range
`adjust_rate_idx`. -/
def trialSchedule (Q : SolverParams) (mid : ℚ) : Option ScheduleResult :=
  match Q.adjust_rate_idx with
  | some idx =>
    if Q.rate_changes ≠ [] then
      (trialRates Q.rate_changes idx mid).map fun rcs =>
        calculate_schedule ⟨Q.principal, Q.annual_rate, Q.frequency, Q.start_date,
          Q.loan_term, Q.fixed_repayment, rcs, Q.extra_repayments,
          Q.repayment_changes⟩
    else
      some (calculate_schedule ⟨Q.principal, Q.annual_rate, Q.frequency,
        Q.start_date, Q.loan_term, some mid, Q.rate_changes, Q.extra_repayments,
        Q.repayment_changes⟩)
  | none =>
    some (calculate_schedule ⟨Q.principal, Q.annual_rate, Q.frequency,
      Q.start_date, Q.loan_term, some mid, Q.rate_changes, Q.extra_repayments,
      Q.repayment_changes⟩)

/-- The bisection loop of `find_repayment_for_target_date`, instrumented:
alongside the Python function's result it returns the list of
`(candidate, succeeded)` trials actually attempted, giving "the smallest
repayment among the trials" something precise to quantify over.  A trial
succeeds when its schedule is nonempty and pays off at or before the
target date; on success the bounds close in from above with the one-cent
guard band, on failure from below.  The outer `Option` propagates an
`IndexError` raised by a trial: `none` means the whole call raises. -/
def solverLoopT (Q : SolverParams) :
    ℕ → ℚ → ℚ → Option SolveOk → Option (Option SolveOk × List (ℚ × Bool))
  | 0, _, _, best => some (best, [])
  | fuel + 1, low, high, best =>
    let mid := round2 ((low + high) / 2)
    match trialSchedule Q mid with
    | none => none
    | some sched =>
      match sched.payoff_date with
      | none => some (best, [(mid, false)])
      | some payoff =>
        if payoff ≤ Q.target_date then
          let best2 : Option SolveOk := some ⟨mid, sched.total_interest,
            sched.total_paid, sched.total_repayments, payoff⟩
          if mid - 1 / 100 < low then some (best2, [(mid, true)])
          else
            match solverLoopT Q fuel low (mid - 1 / 100) best2 with
            | none => none
            | some rest => some (rest.1, (mid, true) :: rest.2)
        else
          if high < mid + 1 / 100 then some (best, [(mid, false)])
          else
            match solverLoopT Q fuel (mid + 1 / 100) high best with
            | none => none
            | some rest => some (rest.1, (mid, false) :: rest.2)

/-- `find_repayment_for_target_date` from `calculator.py`.  `none` models
an uncaught `IndexError` (out-of-range `adjust_rate_idx`); `some none`
models the structured `{"error": ...}` dict; `some (some r)` is success. -/
def find_repayment_for_target_date (Q : SolverParams) : Option (Option SolveOk) :=
  let interest_floor := Q.principal * (Q.annual_rate / (periods_per_year Q.frequency : ℚ))
  (solverLoopT Q 100 (interest_floor + 1 / 100) (Q.principal * 2) none).map
    fun out => out.1

/-- The trials attempted by `find_repayment_for_target_date` (empty when
the call raises). -/
def solverTrials (Q : SolverParams) : List (ℚ × Bool) :=
  let interest_floor := Q.principal * (Q.annual_rate / (periods_per_year Q.frequency : ℚ))
  (((solverLoopT Q 100 (interest_floor + 1 / 100) (Q.principal * 2) none).map
    fun out => out.2).getD [])

theorem solverLoopT_zero (Q : SolverParams) (low high : ℚ) (best : Option SolveOk) :
    solverLoopT Q 0 low high best = some (best, []) := rfl

theorem solverLoopT_succ (Q : SolverParams) (fuel : ℕ) (low high : ℚ)
    (best : Option SolveOk) :
    solverLoopT Q (fuel + 1) low high best =
      (match trialSchedule Q (round2 ((low + high) / 2)) with
       | none => none
       | some sched =>
         match sched.payoff_date with
         | none => some (best, [(round2 ((low + high) / 2), false)])
         | some payoff =>
           if payoff ≤ Q.target_date then
             if round2 ((low + high) / 2) - 1 / 100 < low then
               some (some ⟨round2 ((low + high) / 2), sched.total_interest,
                 sched.total_paid, sched.total_repayments, payoff⟩,
                 [(round2 ((low + high) / 2), true)])
             else
               match solverLoopT Q fuel low (round2 ((low + high) / 2) - 1 / 100)
                   (some ⟨round2 ((low + high) / 2), sched.total_interest,
                     sched.total_paid, sched.total_repayments, payoff⟩) with
               | none => none
               | some rest =>
                 some (rest.1, (round2 ((low + high) / 2), true) :: rest.2)
           else
             if high < round2 ((low + high) / 2) + 1 / 100 then
               some (best, [(round2 ((low + high) / 2), false)])
             else
               match solverLoopT Q fuel (round2 ((low + high) / 2) + 1 / 100) high
                   best with
               | none => none
               | some rest =>
                 some (rest.1, (round2 ((low + high) / 2), false) :: rest.2)) := rfl

theorem round2_sub_cent (x : ℚ) :
    round2 (round2 x - 1 / 100) = round2 x - 1 / 100 := by
  obtain ⟨n, hn⟩ := round2_eq_cents x
  rw [hn]
  have h : (n : ℚ) / 100 - 1 / 100 = ((n - 1 : ℤ) : ℚ) / 100 := by
    push_cast
    ring
  rw [h, round2_cents]

/-- The bisection invariants, for runs that do not raise: every attempted
candidate is bounded by the rounded upper end of the bracket; the loop
returns the error value exactly when it entered with no stored best and
every trial failed; and a returned success is the smallest candidate among
the successful trials. -/
theorem solverLoopT_spec (Q : SolverParams) :
    ∀ (fuel : ℕ) (low high : ℚ) (best : Option SolveOk)
      (out : Option SolveOk × List (ℚ × Bool)),
      solverLoopT Q fuel low high best = some out →
      (∀ b, best = some b → high + 1 / 100 ≤ b.required_repayment) →
      (∀ t ∈ out.2, t.1 ≤ round2 (max low high)) ∧
      (out.1 = none ↔ best = none ∧ ∀ t ∈ out.2, t.2 = false) ∧
      (∀ r, out.1 = some r →
        (best = some r ∨ (r.required_repayment, true) ∈ out.2) ∧
        ∀ t ∈ out.2, t.2 = true → r.required_repayment ≤ t.1) := by
  intro fuel
  induction fuel with
  | zero =>
    intro low high best out hout hbest
    rw [solverLoopT_zero] at hout
    injection hout with h
    subst h
    refine ⟨by simp, by simp, ?_⟩
    intro r hr
    exact ⟨Or.inl hr, by simp⟩
  | succ fuel ih =>
    intro low high best out hout hbest
    have hmid_le : round2 ((low + high) / 2) ≤ round2 (max low high) := by
      apply round2_mono
      rcases le_total low high with h | h
      · rw [max_eq_right h]
        linarith
      · rw [max_eq_left h]
        linarith
    rw [solverLoopT_succ] at hout
    revert hout
    split
    · intro hout
      exact absurd hout (by simp)
    · rename_i sched hsched
      split
      · -- no rows: the trial breaks the loop
        intro hout
        injection hout with h
        subst h
        refine ⟨?_, ?_, ?_⟩
        · intro t ht
          rcases List.mem_singleton.mp ht with rfl
          exact hmid_le
        · constructor
          · intro h
            exact ⟨h, by intro t ht; rcases List.mem_singleton.mp ht with rfl; rfl⟩
          · rintro ⟨h, _⟩
            exact h
        · intro r hr
          refine ⟨Or.inl hr, ?_⟩
          intro t ht htrue
          rcases List.mem_singleton.mp ht with rfl
          exact absurd htrue (by simp)
      · rename_i payoff hpd
        split_ifs with hsucc hlo hhi
        · -- success, bracket closed: return the new best
          intro hout
          injection hout with h
          subst h
          refine ⟨?_, ?_, ?_⟩
          · intro t ht
            rcases List.mem_singleton.mp ht with rfl
            exact hmid_le
          · constructor
            · intro h
              exact absurd h (by simp)
            · rintro ⟨_, hall⟩
              have := hall (round2 ((low + high) / 2), true)
                (List.mem_singleton_self _)
              exact absurd this (by simp)
          · intro r hr
            have hreq : r.required_repayment = round2 ((low + high) / 2) := by
              have := Option.some.inj hr
              rw [← this]
            refine ⟨Or.inr ?_, ?_⟩
            · rw [hreq]
              exact List.mem_singleton_self _
            · intro t ht _
              rcases List.mem_singleton.mp ht with rfl
              rw [hreq]
        · -- success, recurse with high := mid - 0.01 and the new best
          split
          · intro hout
            exact absurd hout (by simp)
          · rename_i rest hrest
            intro hout
            injection hout with h
            subst h
            have hgrid : round2 (round2 ((low + high) / 2) - 1 / 100) =
                round2 ((low + high) / 2) - 1 / 100 := round2_sub_cent _
            have hle2 : low ≤ round2 ((low + high) / 2) - 1 / 100 := le_of_not_lt hlo
            have hbest2 : ∀ b,
                (some (⟨round2 ((low + high) / 2), sched.total_interest,
                  sched.total_paid, sched.total_repayments,
                  payoff⟩ : SolveOk) : Option SolveOk) = some b →
                round2 ((low + high) / 2) - 1 / 100 + 1 / 100 ≤
                  b.required_repayment := by
              intro b hb
              have := Option.some.inj hb
              rw [← this]
              simp
            obtain ⟨ih1, ih2, ih3⟩ := ih low (round2 ((low + high) / 2) - 1 / 100)
              _ rest hrest hbest2
            have hrest_bound : ∀ t ∈ rest.2,
                t.1 ≤ round2 ((low + high) / 2) - 1 / 100 := by
              intro t ht
              have := ih1 t ht
              rw [max_eq_right hle2, hgrid] at this
              exact this
            refine ⟨?_, ?_, ?_⟩
            · intro t ht
              rcases List.mem_cons.mp ht with rfl | hmem
              · exact hmid_le
              · have := hrest_bound t hmem
                have h2 : (0 : ℚ) < 1 / 100 := by norm_num
                linarith
            · constructor
              · intro h
                rcases ih2.mp h with ⟨hb, _⟩
                exact absurd hb (by simp)
              · rintro ⟨_, hall⟩
                have := hall (round2 ((low + high) / 2), true)
                  (List.mem_cons_self _ _)
                exact absurd this (by simp)
            · intro r hr
              obtain ⟨hor, hmin⟩ := ih3 r hr
              have hreq_le : r.required_repayment ≤ round2 ((low + high) / 2) := by
                rcases hor with hb | hmem
                · have := Option.some.inj hb
                  rw [← this]
                · have := hrest_bound (r.required_repayment, true) hmem
                  have h0 : (0 : ℚ) < 1 / 100 := by norm_num
                  linarith
              refine ⟨?_, ?_⟩
              · rcases hor with hb | hmem
                · have := Option.some.inj hb
                  refine Or.inr ?_
                  rw [← this]
                  exact List.mem_cons_self _ _
                · exact Or.inr (List.mem_cons_of_mem _ hmem)
              · intro t ht htrue
                rcases List.mem_cons.mp ht with rfl | hmem
                · exact hreq_le
                · exact hmin t hmem htrue
        · -- failure, bracket closed: return the old best
          intro hout
          injection hout with h
          subst h
          refine ⟨?_, ?_, ?_⟩
          · intro t ht
            rcases List.mem_singleton.mp ht with rfl
            exact hmid_le
          · constructor
            · intro h
              exact ⟨h, by intro t ht; rcases List.mem_singleton.mp ht with rfl; rfl⟩
            · rintro ⟨h, _⟩
              exact h
          · intro r hr
            refine ⟨Or.inl hr, ?_⟩
            intro t ht htrue
            rcases List.mem_singleton.mp ht with rfl
            exact absurd htrue (by simp)
        · -- failure, recurse with low := mid + 0.01 and the old best
          split
          · intro hout
            exact absurd hout (by simp)
          · rename_i rest hrest
            intro hout
            injection hout with h
            subst h
            have hle2 : round2 ((low + high) / 2) + 1 / 100 ≤ high := le_of_not_lt hhi
            obtain ⟨ih1, ih2, ih3⟩ := ih (round2 ((low + high) / 2) + 1 / 100) high
              best rest hrest hbest
            have hrest_bound : ∀ t ∈ rest.2, t.1 ≤ round2 (max low high) := by
              intro t ht
              have := ih1 t ht
              rw [max_eq_right hle2] at this
              calc t.1 ≤ round2 high := this
                _ ≤ round2 (max low high) := round2_mono (le_max_right _ _)
            refine ⟨?_, ?_, ?_⟩
            · intro t ht
              rcases List.mem_cons.mp ht with rfl | hmem
              · exact hmid_le
              · exact hrest_bound t hmem
            · constructor
              · intro h
                obtain ⟨hb, hall⟩ := ih2.mp h
                refine ⟨hb, ?_⟩
                intro t ht
                rcases List.mem_cons.mp ht with rfl | hmem
                · rfl
                · exact hall t hmem
              · rintro ⟨hb, hall⟩
                refine ih2.mpr ⟨hb, ?_⟩
                intro t ht
                exact hall t (List.mem_cons_of_mem _ ht)
            · intro r hr
              obtain ⟨hor, hmin⟩ := ih3 r hr
              refine ⟨?_, ?_⟩
              · rcases hor with hb | hmem
                · exact Or.inl hb
                · exact Or.inr (List.mem_cons_of_mem _ hmem)
              · intro t ht htrue
                rcases List.mem_cons.mp ht with rfl | hmem
                · exact absurd htrue (by simp)
                · exact hmin t hmem htrue


/-- Candidate repayments stay at or above one cent throughout the
bisection, given sane starting bounds. -/
theorem solverLoopT_pos (Q : SolverParams) :
    ∀ (fuel : ℕ) (low high : ℚ) (best : Option SolveOk)
      (out : Option SolveOk × List (ℚ × Bool)),
      solverLoopT Q fuel low high best = some out →
      1 / 100 ≤ low → 0 ≤ high →
      (∀ b, best = some b → 1 / 100 ≤ b.required_repayment) →
      ∀ r, out.1 = some r → 1 / 100 ≤ r.required_repayment := by
  intro fuel
  induction fuel with
  | zero =>
    intro low high best out hout _ _ hbest r hr
    rw [solverLoopT_zero] at hout
    injection hout with h
    subst h
    exact hbest r hr
  | succ fuel ih =>
    intro low high best out hout hlow hhigh hbest r
    have hmid : 1 / 100 ≤ round2 ((low + high) / 2) := by
      apply round2_ge_cent
      linarith
    rw [solverLoopT_succ] at hout
    revert hout
    split
    · intro hout
      exact absurd hout (by simp)
    · rename_i sched hsched
      split
      · intro hout
        injection hout with h
        subst h
        exact hbest r
      · rename_i payoff hpd
        split_ifs with hsucc hlo hhi
        · intro hout
          injection hout with h
          subst h
          intro hr
          have := Option.some.inj hr
          rw [← this]
          exact hmid
        · split
          · intro hout
            exact absurd hout (by simp)
          · rename_i rest hrest
            intro hout
            injection hout with h
            subst h
            refine ih low (round2 ((low + high) / 2) - 1 / 100) _ rest hrest hlow
              (by linarith) ?_ r
            intro b hb
            have := Option.some.inj hb
            rw [← this]
            exact hmid
        · intro hout
          injection hout with h
          subst h
          exact hbest r
        · split
          · intro hout
            exact absurd hout (by simp)
          · rename_i rest hrest
            intro hout
            injection hout with h
            subst h
            exact ih (round2 ((low + high) / 2) + 1 / 100) high best rest hrest
              (by linarith) hhigh hbest r

/-- A trial never raises when any supplied adjust index is in range for a
non-empty rate-change list. -/
theorem trialSchedule_isSome (Q : SolverParams)
    (hidx : ∀ idx ∈ Q.adjust_rate_idx, Q.rate_changes ≠ [] →
      idx < Q.rate_changes.length)
    (mid : ℚ) : (trialSchedule Q mid).isSome = true := by
  rw [trialSchedule]
  split
  · rename_i idx hQ
    split_ifs with hne
    · have hlt : idx < Q.rate_changes.length :=
        hidx idx (by rw [hQ]; rfl) hne
      rw [trialRates]
      have hget : Q.rate_changes[idx]? = some (Q.rate_changes.get ⟨idx, hlt⟩) := by
        rw [List.getElem?_eq_getElem hlt]
        rfl
      rw [hget]
      rfl
    · rfl
  · rfl

/-- Under in-range adjust indices the bisection loop never raises. -/
theorem solverLoopT_ne_none (Q : SolverParams)
    (htrial : ∀ mid, (trialSchedule Q mid).isSome = true) :
    ∀ (fuel : ℕ) (low high : ℚ) (best : Option SolveOk),
      solverLoopT Q fuel low high best ≠ none := by
  intro fuel
  induction fuel with
  | zero =>
    intro low high best
    rw [solverLoopT_zero]
    simp
  | succ fuel ih =>
    intro low high best
    rw [solverLoopT_succ]
    split
    · rename_i hsched
      have := htrial (round2 ((low + high) / 2))
      rw [hsched] at this
      exact absurd this (by simp)
    · rename_i sched hsched
      split
      · simp
      · rename_i payoff hpd
        split_ifs with hsucc hlo hhi
        · simp
        · split
          · rename_i hrest
            exact absurd hrest (ih low (round2 ((low + high) / 2) - 1 / 100) _)
          · simp
        · simp
        · split
          · rename_i hrest
            exact absurd hrest (ih (round2 ((low + high) / 2) + 1 / 100) high best)
          · simp

/-- C4: with a valid adjust index (the in-range precondition under which
Python's `trial_rates[idx]` assignment cannot raise), the solver always
returns a value rather than raising; it returns the structured error value
exactly when no bisection trial pays off by the target date; and a
returned `required_repayment` is positive, is itself a successful trial,
and is the smallest repayment among all successful trials. -/
theorem claim_C4 (Q : SolverParams) (hp : 0 < Q.principal)
    (hr : 0 ≤ Q.annual_rate)
    (hidx : ∀ idx ∈ Q.adjust_rate_idx, Q.rate_changes ≠ [] →
      idx < Q.rate_changes.length) :
    (∃ res, find_repayment_for_target_date Q = some res) ∧
    ((∀ t ∈ solverTrials Q, t.2 = false) →
      find_repayment_for_target_date Q = some none) ∧
    (∀ r, find_repayment_for_target_date Q = some (some r) →
      0 < r.required_repayment ∧
      (r.required_repayment, true) ∈ solverTrials Q ∧
      ∀ t ∈ solverTrials Q, t.2 = true → r.required_repayment ≤ t.1) := by
  have hppy : (0 : ℚ) < (periods_per_year Q.frequency : ℚ) := by
    cases Q.frequency <;> norm_num [periods_per_year]
  have hfloor : (0 : ℚ) ≤ Q.principal *
      (Q.annual_rate / (periods_per_year Q.frequency : ℚ)) :=
    mul_nonneg (le_of_lt hp) (div_nonneg hr (le_of_lt hppy))
  have hns := solverLoopT_ne_none Q (trialSchedule_isSome Q hidx) 100
    (Q.principal * (Q.annual_rate / (periods_per_year Q.frequency : ℚ)) + 1 / 100)
    (Q.principal * 2) none
  obtain ⟨out, hout⟩ := Option.ne_none_iff_exists'.mp hns
  have hfind : find_repayment_for_target_date Q = some out.1 := by
    show ((solverLoopT Q 100
      (Q.principal * (Q.annual_rate / (periods_per_year Q.frequency : ℚ)) + 1 / 100)
      (Q.principal * 2) none).map fun o => o.1) = some out.1
    rw [hout]
    rfl
  have htr : solverTrials Q = out.2 := by
    show (((solverLoopT Q 100
      (Q.principal * (Q.annual_rate / (periods_per_year Q.frequency : ℚ)) + 1 / 100)
      (Q.principal * 2) none).map fun o => o.2).getD []) = out.2
    rw [hout]
    rfl
  obtain ⟨s1, s2, s3⟩ := solverLoopT_spec Q 100
    (Q.principal * (Q.annual_rate / (periods_per_year Q.frequency : ℚ)) + 1 / 100)
    (Q.principal * 2) none out hout (by intro b hb; exact absurd hb (by simp))
  refine ⟨⟨out.1, hfind⟩, ?_, ?_⟩
  · intro hall
    have hnone : out.1 = none := s2.mpr ⟨rfl, by rw [← htr]; exact hall⟩
    rw [hfind, hnone]
  · intro r hres
    have hout1 : out.1 = some r := by
      rw [hfind] at hres
      exact Option.some.inj hres
    obtain ⟨hor, hmin⟩ := s3 r hout1
    have hmem : (r.required_repayment, true) ∈ solverTrials Q := by
      rw [htr]
      rcases hor with hb | hm
      · exact absurd hb (by simp)
      · exact hm
    refine ⟨?_, hmem, by rw [htr]; exact hmin⟩
    have hpos := solverLoopT_pos Q 100
      (Q.principal * (Q.annual_rate / (periods_per_year Q.frequency : ℚ)) + 1 / 100)
      (Q.principal * 2) none out hout (by linarith) (by linarith)
      (by intro b hb; exact absurd hb (by simp)) r hout1
    linarith

/-- A solver instance for the C4 witness: 100 at 0% weekly over 4 periods,
target 4 weeks out.  The bisection settles on 25.00 per period. -/
def C4P : SolverParams :=
  { principal := 100, annual_rate := 0, frequency := .weekly, start_date := 0,
    loan_term := 4, target_date := 28 }

set_option maxRecDepth 100000 in
/-- Witness for C4: for C4P the solver returns a value (does not raise),
and the returned repayment is positive and appears among the successful
trials. -/
theorem claim_C4_witness :
    find_repayment_for_target_date C4P = some (some ⟨25, 0, 100, 4, 28⟩) ∧
    0 < (⟨25, 0, 100, 4, 28⟩ : SolveOk).required_repayment ∧
    ((⟨25, 0, 100, 4, 28⟩ : SolveOk).required_repayment, true) ∈ solverTrials C4P := by
  have hres : find_repayment_for_target_date C4P = some (some ⟨25, 0, 100, 4, 28⟩) := by
    with_unfolding_all rfl
  have h := (claim_C4 C4P (by norm_num [C4P]) (by norm_num [C4P])
    (by intro idx hmem; rw [show C4P.adjust_rate_idx = none from rfl] at hmem
        exact absurd hmem (by simp))).2.2
    ⟨25, 0, 100, 4, 28⟩ hres
  exact ⟨hres, h.1, h.2.1⟩

/-- The raise path of the model is live: with a non-empty rate-change list
and an out-of-range `adjust_rate_idx`, the first trial's `IndexError`
propagates and the whole call raises (`none`). -/
def C4bad : SolverParams :=
  { principal := 100, annual_rate := 0, frequency := .weekly, start_date := 0,
    loan_term := 4, target_date := 28, rate_changes := [⟨0, 0, none⟩],
    adjust_rate_idx := some 5 }

theorem find_repayment_raises_on_bad_index :
    find_repayment_for_target_date C4bad = none := by
  with_unfolding_all rfl

end LoanRepay
